import Mathlib

/-!
Verification of the Midea IR remote core (midea_ir.c): packet encoder,
complement-byte frame builder, pulse-train builder and the timer-interrupt
playback engine.  Machine bytes (uint8_t) are modelled as Nat, with an
explicit % 256 at the points where the C code can actually wrap.
-/

namespace MideaSem

/-- GPIO pin level as used by the HAL: GPIO_PIN_RESET is the low level,
GPIO_PIN_SET the high level. -/
inductive GPIO_PinState where
  | reset
  | set
deriving DecidableEq, Repr

/-- Modelled from the spec: the Mode enum lives in midea_ir.h, which is not
part of the sources; the spec lists the four modes Cool, Heat, Auto, Fan and
the data-packet comment in midea_ir.c gives their protocol command codes
(cool 0b0000, heat 0b1100, automatic 0b1000, fan 0b0100). -/
inductive Mode where
  | MODE_COOL
  | MODE_HEAT
  | MODE_AUTO
  | MODE_FAN
deriving DecidableEq, Repr

/-- Protocol command nibble of each mode, per the data-packet comment. -/
def Mode.code : Mode → Nat
  | .MODE_COOL => 0b0000
  | .MODE_HEAT => 0b1100
  | .MODE_AUTO => 0b1000
  | .MODE_FAN  => 0b0100

/-- Modelled from the spec: the MideaIR state struct from midea_ir.h.  The
spec's data model gives temperature as an integer, enabled as a bool, one of
four modes, and fan_level ranging over 0..=3. -/
structure MideaIR where
  temperature : Nat
  enabled : Bool
  mode : Mode
  fan_level : Fin 4
deriving DecidableEq, Repr

/-- Data packet of midea_ir.c: magic byte plus four nibble fields. -/
structure DataPacket where
  magic : Nat
  state : Nat
  fan : Nat
  command : Nat
  temp : Nat
deriving DecidableEq, Repr

/-- Temperature-to-nibble table (temperature_table in midea_ir.c). -/
def temperature_table : List Nat :=
  [0b0000, 0b0001, 0b0011, 0b0010, 0b0110, 0b0111, 0b0101,
   0b0100, 0b1100, 0b1101, 0b1001, 0b1000, 0b1010, 0b1011]

/-- Fan-level-to-nibble table (fan_table in midea_ir.c). -/
def fan_table : List Nat := [0b1011, 0b1001, 0b0101, 0b0011]

/-- Modelled from the spec: TEMP_LOW is defined in midea_ir.h; the spec gives
the supported temperature range as 17..30 Celsius. -/
def TEMP_LOW : Nat := 17

/-- Modelled from the spec: TEMP_HIGH from midea_ir.h, upper end of 17..30. -/
def TEMP_HIGH : Nat := 30

/-- Shallow embedding of pack_data from midea_ir.c.  Table reads use getD
with default 0; pack_data_opt below shows the default is never used. -/
def pack_data (ir : MideaIR) : DataPacket :=
  if ir.enabled then
    let fanNib := if ir.mode = Mode.MODE_AUTO then 0b0001
      else fan_table.getD ir.fan_level.val 0
    let tempNib := if ir.mode = Mode.MODE_FAN then 0b1110
      else if TEMP_LOW ≤ ir.temperature ∧ ir.temperature ≤ TEMP_HIGH then
        temperature_table.getD (ir.temperature - TEMP_LOW) 0
      else 0b0100
    { magic := 0xB2, state := 0b1111, fan := fanNib,
      command := ir.mode.code, temp := tempNib }
  else
    { magic := 0xB2, state := 0b1011, fan := 0b0111,
      command := 0b0000, temp := 0b1110 }

/-- Variant of pack_data in which every table access is an optional lookup
that fails on an out-of-bounds index; used to state that pack_data never
performs an out-of-bounds table access. -/
def pack_data_opt (ir : MideaIR) : Option DataPacket :=
  if ir.enabled then
    match (if ir.mode = Mode.MODE_AUTO then some 0b0001
           else fan_table[ir.fan_level.val]?),
          (if ir.mode = Mode.MODE_FAN then some 0b1110
           else if TEMP_LOW ≤ ir.temperature ∧ ir.temperature ≤ TEMP_HIGH then
             temperature_table[ir.temperature - TEMP_LOW]?
           else some 0b0100) with
    | some fanNib, some tempNib =>
        some { magic := 0xB2, state := 0b1111, fan := fanNib,
               command := ir.mode.code, temp := tempNib }
    | _, _ => none
  else
    some { magic := 0xB2, state := 0b1011, fan := 0b0111,
           command := 0b0000, temp := 0b1110 }

/-- Byte image of a DataPacket as midea_ir_send reads it through a uint8_t
pointer: byte 0 is magic; the state bitfield is declared before fan, so on
this little-endian target byte 1 is state in the low nibble and fan in the
high nibble, and byte 2 is command low, temp high.  This matches the
documented layout and the worked example packet 0xB2 0x5F 0x70. -/
def packet_bytes (p : DataPacket) : List Nat :=
  [p.magic, p.state + 16 * p.fan, p.command + 16 * p.temp]

/-- Shallow embedding of add_complementary_bytes from midea_ir.c: each source
byte is followed by its bitwise complement, which on uint8_t is xor with
0xFF. -/
def add_complementary_bytes (src : List Nat) : List Nat :=
  src.foldr (fun b acc => b :: (b % 256 ^^^ 0xFF) :: acc) []

/-- Capacity of the pulses bitmap, PULSES_CAPACITY bytes. -/
def PULSES_CAPACITY : Nat := 29

/-- Sub-ticks per slot, SUB_PULSES_PER_PULSE in midea_ir.c. -/
def SUB_PULSES_PER_PULSE : Nat := 42

/-- Shallow embedding of the volatile IrState struct: the pulses byte array,
its used size, the repeat counter and the two playback cursors.  All fields
are uint8_t in the C source. -/
structure IrState where
  pulses : List Nat
  pulses_size : Nat
  repeat_count : Nat
  current_pulse : Nat
  current_sub_pulse : Nat
deriving DecidableEq, Repr

/-- Byte number i of the pulses array; reading out of bounds yields 0 (never
exercised on the program's own paths, where the index stays below 29). -/
def getByte (pu : List Nat) (i : Nat) : Nat := pu.getD i 0

/-- Slot (bit) number c of the pulses bitmap, the C expression
pulses[c / 8] & (1 << (c % 8)) viewed as a boolean. -/
def getSlot (pu : List Nat) (c : Nat) : Bool :=
  (getByte pu (c / 8)).testBit (c % 8)

/-- Setting slot c of the pulses bitmap, the C statement
pulses[c / 8] |= 1 << (c % 8). -/
def setSlot (pu : List Nat) (c : Nat) : List Nat :=
  pu.set (c / 8) (getByte pu (c / 8) ||| (1 <<< (c % 8)))

/-- Shallow embedding of init_buff: reset both cursors and zero the whole
pulses array. -/
def init_buff (st : IrState) : IrState :=
  { st with current_pulse := 0, current_sub_pulse := 0,
            pulses := List.replicate PULSES_CAPACITY 0 }

/-- Shallow embedding of add_start: byte 0 becomes 0b11111111, byte 1 becomes
0, and the cursor jumps to slot 16. -/
def add_start (st : IrState) : IrState :=
  { st with pulses := (st.pulses.set 0 0b11111111).set 1 0,
            current_pulse := 8 * 2 }

/-- Shallow embedding of add_bit: set a mark at the cursor, advance past it,
then skip 3 further slots for a 1 bit or 1 further slot for a 0 bit. -/
def add_bit (st : IrState) (bit : Bool) : IrState :=
  let st1 := { st with pulses := setSlot st.pulses st.current_pulse,
                       current_pulse := st.current_pulse + 1 }
  if bit then { st1 with current_pulse := st1.current_pulse + 3 }
  else { st1 with current_pulse := st1.current_pulse + 1 }

/-- Shallow embedding of add_stop: a 1 bit followed by 8 extra slots. -/
def add_stop (st : IrState) : IrState :=
  let st1 := add_bit st true
  { st1 with current_pulse := st1.current_pulse + 8 }

/-- Shallow embedding of the static start helper: record the used size, reset
the cursors and load the repeat counter (a uint8_t, hence the % 256).  The
hardware timer start is modelled separately in the Machine type. -/
def start (st : IrState) (rep : Nat) : IrState :=
  { st with pulses_size := st.current_pulse % 256,
            current_pulse := 0, current_sub_pulse := 0,
            repeat_count := rep % 256 }

/-- Bits of one data byte most-significant-bit first, as produced by the C
loop add_bit(v & (1 << 7)); v <<= 1 on a uint8_t. -/
def byteBits (v : Nat) : List Bool :=
  [v.testBit 7, v.testBit 6, v.testBit 5, v.testBit 4,
   v.testBit 3, v.testBit 2, v.testBit 1, v.testBit 0]

/-- Shallow embedding of send_ir_data: clear the buffer, write the start
condition, encode the 6 data bytes MSB first, write the stop marker and arm
the engine. -/
def send_ir_data (data : List Nat) (rep : Nat) (st : IrState) : IrState :=
  let st1 := add_start (init_buff st)
  let st2 := data.foldl (fun s v => (byteBits v).foldl add_bit s) st1
  start (add_stop st2) rep

/-- Shallow embedding of midea_ir_send: pack, add complement bytes, transmit
with repeat 2. -/
def midea_ir_send (ir : MideaIR) (st : IrState) : IrState :=
  send_ir_data (add_complementary_bytes (packet_bytes (pack_data ir))) 2 st

/-- Shallow embedding of midea_ir_move_deflector: frame the three literal
bytes 0xB2 0x0F 0xE0 and transmit with repeat 1; the MideaIR argument is
never read. -/
def midea_ir_move_deflector (_ir : MideaIR) (st : IrState) : IrState :=
  send_ir_data (add_complementary_bytes [0xB2, 0x0F, 0xE0]) 1 st

/-- Shallow embedding of midea_ir_init: the engine goes idle (repeat_count
0), the caller state receives its defaults and the IR pin is driven to
GPIO_PIN_RESET.  The result triple is the new engine state, the new caller
state and the written pin level. -/
def midea_ir_init (st : IrState) : IrState × MideaIR × GPIO_PinState :=
  ({ st with repeat_count := 0 },
   { temperature := 24, enabled := false, mode := Mode.MODE_AUTO,
     fan_level := 0 },
   GPIO_PinState.reset)

/-- Machine state seen by the interrupt handler: the IrState plus the IR LED
pin level and whether the periodic timer is running. -/
structure Machine where
  ir : IrState
  pin : GPIO_PinState
  timer_on : Bool
deriving DecidableEq, Repr

/-- Shallow embedding of HAL_TIM_PeriodElapsedCallback, one periodic tick of
the playback engine.  The uint8_t counters current_pulse and repeat_count
wrap modulo 256 exactly where the C increments and decrements them. -/
def HAL_TIM_PeriodElapsedCallback (m : Machine) : Machine :=
  let s := m.ir
  let pulse_val := getSlot s.pulses s.current_pulse
  if s.current_sub_pulse < SUB_PULSES_PER_PULSE then
    let pin := if s.current_sub_pulse % 2 = 0 ∧ pulse_val then
        GPIO_PinState.reset
      else GPIO_PinState.set
    { m with ir := { s with current_sub_pulse := s.current_sub_pulse + 1 },
             pin := pin }
  else
    let s1 := { s with current_sub_pulse := 0,
                       current_pulse := (s.current_pulse + 1) % 256 }
    if s1.current_pulse ≥ s1.pulses_size then
      let s2 := { s1 with repeat_count := (s1.repeat_count + 255) % 256 }
      if s2.repeat_count ≠ 0 then
        { m with ir := { s2 with current_pulse := 0, current_sub_pulse := 0 } }
      else
        { m with ir := s2, timer_on := false, pin := GPIO_PinState.reset }
    else
      { m with ir := s1 }

/-- Weight in slots of one data bit: a 1 bit occupies 4 slots, a 0 bit 2. -/
def slotWeight (b : Bool) : Nat := if b then 4 else 2

/-- Total slot weight of a bit sequence. -/
def weightSum (bs : List Bool) : Nat := (bs.map slotWeight).sum

/-- Slot encoding of one bit: a mark then 3 spaces for 1, 1 space for 0. -/
def encBit (b : Bool) : List Bool :=
  true :: List.replicate (if b then 3 else 1) false

/-- Slot encoding of a bit sequence. -/
def encBits (bs : List Bool) : List Bool :=
  bs.foldr (fun b acc => encBit b ++ acc) []

/-- All 8·n bits of a data byte list, MSB first within each byte. -/
def frameBits (data : List Nat) : List Bool :=
  data.foldr (fun v acc => byteBits v ++ acc) []

/-- First n slots of a pulses bitmap as a list. -/
def slotsList (pu : List Nat) (n : Nat) : List Bool :=
  (List.range n).map (getSlot pu)

/-- Length of the leading run of space slots. -/
def countFalses : List Bool → Nat
  | false :: rest => countFalses rest + 1
  | _ => 0

/-- Decoder used as the round-trip test oracle, following the spec: read a
mark slot, count the space slots after it, 3 spaces decode to a 1 bit and 1
space to a 0 bit; n is the number of bits to extract. -/
def decodeBits : Nat → List Bool → List Bool
  | 0, _ => []
  | n + 1, slots =>
    match slots with
    | true :: rest =>
        let c := countFalses rest
        decide (c = 3) :: decodeBits n (rest.drop c)
    | _ => []

/-- Byte value of 8 bits given MSB first. -/
def bitsToByte (bs : List Bool) : Nat :=
  bs.foldl (fun acc b => 2 * acc + (if b then 1 else 0)) 0

/-- Regroup a decoded bit stream into n bytes of 8 bits each, MSB first. -/
def bytesFromBits : Nat → List Bool → List Nat
  | 0, _ => []
  | n + 1, bs => bitsToByte (bs.take 8) :: bytesFromBits n (bs.drop 8)

/-- Engine state as it is at boot, before any transmission. -/
def boot_ir_state : IrState :=
  { pulses := List.replicate PULSES_CAPACITY 0, pulses_size := 0,
    repeat_count := 0, current_pulse := 0, current_sub_pulse := 0 }

/-! ### Lemmas about the slot bitmap -/

theorem length_setSlot (pu : List Nat) (c : Nat) :
    (setSlot pu c).length = pu.length := by
  simp [setSlot]

theorem getByte_setSlot_self (pu : List Nat) (c : Nat) (h : c / 8 < pu.length) :
    getByte (setSlot pu c) (c / 8) = getByte pu (c / 8) ||| (1 <<< (c % 8)) := by
  simp [getByte, setSlot, List.getElem?_set_self h]

theorem getByte_setSlot_other (pu : List Nat) (c i : Nat) (h : c / 8 ≠ i) :
    getByte (setSlot pu c) i = getByte pu i := by
  simp [getByte, setSlot, List.getElem?_set_ne h]

theorem getSlot_setSlot_self (pu : List Nat) (c : Nat) (h : c / 8 < pu.length) :
    getSlot (setSlot pu c) c = true := by
  simp [getSlot, getByte_setSlot_self pu c h, Nat.one_shiftLeft,
    Nat.testBit_two_pow_self]

theorem getSlot_setSlot_other (pu : List Nat) (c j : Nat) (hne : j ≠ c) :
    getSlot (setSlot pu c) j = getSlot pu j := by
  by_cases hlen : c / 8 < pu.length
  · by_cases hb : c / 8 = j / 8
    · have hm : c % 8 ≠ j % 8 := fun h => hne (by omega)
      unfold getSlot
      rw [← hb, getByte_setSlot_self pu c hlen]
      simp only [Nat.one_shiftLeft, Nat.testBit_or,
        Nat.testBit_two_pow_of_ne hm, Bool.or_false]
    · unfold getSlot
      rw [getByte_setSlot_other pu c _ hb]
  · unfold getSlot setSlot
    rw [List.set_eq_of_length_le (by omega)]

theorem getSlot_replicate_zero (n j : Nat) :
    getSlot (List.replicate n 0) j = false := by
  simp [getSlot, getByte, List.getElem?_replicate]
  split <;> simp

/-! ### Lemmas about the pulse-train builder -/

theorem encBit_length (b : Bool) : (encBit b).length = slotWeight b := by
  cases b <;> simp [encBit, slotWeight]

theorem encBits_cons (b : Bool) (bs : List Bool) :
    encBits (b :: bs) = encBit b ++ encBits bs := rfl

theorem weightSum_cons (b : Bool) (bs : List Bool) :
    weightSum (b :: bs) = slotWeight b + weightSum bs := by
  simp [weightSum]

theorem encBits_length (bs : List Bool) : (encBits bs).length = weightSum bs := by
  induction bs with
  | nil => rfl
  | cons b bs ih =>
      rw [encBits_cons, List.length_append, encBit_length, weightSum_cons, ih]

theorem weightSum_le (bs : List Bool) : weightSum bs ≤ 4 * bs.length := by
  induction bs with
  | nil => simp [weightSum]
  | cons b bs ih =>
      rw [weightSum_cons]
      have : slotWeight b ≤ 4 := by cases b <;> simp [slotWeight]
      simp [List.length_cons]
      omega

theorem slotWeight_pos (b : Bool) : 2 ≤ slotWeight b := by
  cases b <;> decide

theorem add_bit_current (st : IrState) (b : Bool) :
    (add_bit st b).current_pulse = st.current_pulse + slotWeight b := by
  cases b <;> simp [add_bit, slotWeight]

theorem add_bit_pulses (st : IrState) (b : Bool) :
    (add_bit st b).pulses = setSlot st.pulses st.current_pulse := by
  cases b <;> simp [add_bit]

theorem add_bit_rest (st : IrState) (b : Bool) :
    (add_bit st b).pulses_size = st.pulses_size ∧
    (add_bit st b).repeat_count = st.repeat_count ∧
    (add_bit st b).current_sub_pulse = st.current_sub_pulse := by
  cases b <;> simp [add_bit]

theorem getD_replicate_false (k m : Nat) :
    (List.replicate k false).getD m false = false := by
  simp [List.getD_eq_getElem?_getD, List.getElem?_replicate]
  split <;> simp

theorem encBit_getD_zero (b : Bool) : (encBit b).getD 0 false = true := by
  cases b <;> simp [encBit]

theorem encBit_getD_pos (b : Bool) (i : Nat) (h : 1 ≤ i) :
    (encBit b).getD i false = false := by
  obtain ⟨j, rfl⟩ : ∃ j, i = j + 1 := ⟨i - 1, by omega⟩
  cases b <;> simp only [encBit, List.getD_cons_succ] <;>
    exact getD_replicate_false _ _

theorem foldl_add_bit_spec (bs : List Bool) (st : IrState)
    (hlen : st.pulses.length = 29)
    (hahead : ∀ j, st.current_pulse ≤ j → getSlot st.pulses j = false)
    (hcap : st.current_pulse + weightSum bs ≤ 232) :
    (bs.foldl add_bit st).current_pulse = st.current_pulse + weightSum bs ∧
    (bs.foldl add_bit st).pulses.length = 29 ∧
    (bs.foldl add_bit st).pulses_size = st.pulses_size ∧
    (bs.foldl add_bit st).repeat_count = st.repeat_count ∧
    (bs.foldl add_bit st).current_sub_pulse = st.current_sub_pulse ∧
    (∀ j, st.current_pulse + weightSum bs ≤ j →
      getSlot (bs.foldl add_bit st).pulses j = false) ∧
    (∀ j, j < st.current_pulse →
      getSlot (bs.foldl add_bit st).pulses j = getSlot st.pulses j) ∧
    (∀ i, i < weightSum bs →
      getSlot (bs.foldl add_bit st).pulses (st.current_pulse + i) =
        (encBits bs).getD i false) := by
  induction bs generalizing st with
  | nil =>
      refine ⟨by simp [weightSum], hlen, rfl, rfl, rfl, ?_, ?_, ?_⟩
      · intro j hj
        exact hahead j (by simpa [weightSum] using hj)
      · intro j _
        rfl
      · intro i hi
        simp [weightSum] at hi
  | cons b bs ih =>
      set c := st.current_pulse with hc
      have hw := slotWeight_pos b
      have hcap' : c + slotWeight b + weightSum bs ≤ 232 := by
        rw [weightSum_cons] at hcap
        omega
      have hdiv : c / 8 < 29 := by omega
      have h1cur : (add_bit st b).current_pulse = c + slotWeight b :=
        add_bit_current st b
      have h1pul : (add_bit st b).pulses = setSlot st.pulses c :=
        add_bit_pulses st b
      have h1len : (add_bit st b).pulses.length = 29 := by
        rw [h1pul, length_setSlot, hlen]
      have h1ahead : ∀ j, (add_bit st b).current_pulse ≤ j →
          getSlot (add_bit st b).pulses j = false := by
        intro j hj
        rw [h1pul, getSlot_setSlot_other _ _ _ (by omega)]
        exact hahead j (by omega)
      have h1below : ∀ j, j ≠ c →
          getSlot (add_bit st b).pulses j = getSlot st.pulses j := by
        intro j hj
        rw [h1pul, getSlot_setSlot_other _ _ _ hj]
      have h1mark : getSlot (add_bit st b).pulses c = true := by
        rw [h1pul]
        exact getSlot_setSlot_self _ _ (by omega)
      have hrest := add_bit_rest st b
      obtain ⟨ih1, ih2, ih3, ih4, ih5, ih6, ih7, ih8⟩ :=
        ih (add_bit st b) h1len h1ahead (by rw [h1cur]; omega)
      rw [List.foldl_cons]
      refine ⟨?_, ih2, ?_, ?_, ?_, ?_, ?_, ?_⟩
      · rw [ih1, h1cur, weightSum_cons]
        omega
      · rw [ih3, hrest.1]
      · rw [ih4, hrest.2.1]
      · rw [ih5, hrest.2.2]
      · intro j hj
        apply ih6
        rw [h1cur, weightSum_cons] at *
        omega
      · intro j hj
        rw [ih7 j (by omega), h1below j (by omega)]
      · intro i hi
        rw [weightSum_cons] at hi
        rw [encBits_cons]
        by_cases hsplit : i < slotWeight b
        · have : c + i < (add_bit st b).current_pulse := by
            rw [h1cur]; omega
          rw [ih7 _ this]
          rw [List.getD_append _ _ _ _ (by rw [encBit_length]; omega)]
          rcases Nat.eq_zero_or_pos i with hi0 | hipos
          · subst hi0
            rw [encBit_getD_zero]
            simpa using h1mark
          · rw [encBit_getD_pos b i hipos, h1below _ (by omega)]
            exact hahead _ (by omega)
        · push_neg at hsplit
          have hi' : i - slotWeight b < weightSum bs := by omega
          have := ih8 (i - slotWeight b) hi'
          rw [h1cur] at this
          rw [show c + i = c + slotWeight b + (i - slotWeight b) by omega, this]
          rw [List.getD_append_right _ _ _ _ (by rw [encBit_length]; omega),
            encBit_length]

theorem add_start_getSlot (st : IrState) (j : Nat) :
    getSlot (add_start (init_buff st)).pulses j = decide (j < 8) := by
  unfold add_start init_buff getSlot getByte PULSES_CAPACITY
  by_cases h0 : j < 8
  · have hj8 : j / 8 = 0 := by omega
    have hjm : j % 8 = j := by omega
    simp only [hj8, hjm]
    rw [List.getD_eq_getElem?_getD,
      List.getElem?_set_ne (by omega : (1 : Nat) ≠ 0),
      List.getElem?_set_self (by simp)]
    simp only [Option.getD_some,
      show (0b11111111 : Nat) = 2 ^ 8 - 1 from rfl,
      Nat.testBit_two_pow_sub_one]
  · by_cases h1 : j < 16
    · have hj8 : j / 8 = 1 := by omega
      simp only [hj8]
      rw [List.getD_eq_getElem?_getD, List.getElem?_set_self (by simp)]
      simp [h0]
    · have hj8 : 2 ≤ j / 8 := by omega
      rw [List.getD_eq_getElem?_getD,
        List.getElem?_set_ne (by omega : (1 : Nat) ≠ j / 8),
        List.getElem?_set_ne (by omega : (0 : Nat) ≠ j / 8),
        List.getElem?_replicate]
      split <;> simp [h0]

theorem add_start_fields (st : IrState) :
    (add_start (init_buff st)).current_pulse = 16 ∧
    (add_start (init_buff st)).pulses.length = 29 ∧
    (add_start (init_buff st)).pulses_size = st.pulses_size ∧
    (add_start (init_buff st)).repeat_count = st.repeat_count ∧
    (add_start (init_buff st)).current_sub_pulse = 0 := by
  simp [add_start, init_buff, PULSES_CAPACITY]

theorem byteBits_length (v : Nat) : (byteBits v).length = 8 := rfl

theorem frameBits_cons (v : Nat) (data : List Nat) :
    frameBits (v :: data) = byteBits v ++ frameBits data := rfl

theorem frameBits_length (data : List Nat) :
    (frameBits data).length = 8 * data.length := by
  induction data with
  | nil => rfl
  | cons v data ih =>
      rw [frameBits_cons, List.length_append, byteBits_length, ih,
        List.length_cons]
      ring

theorem foldl_bytes_eq_foldl_bits (data : List Nat) (st : IrState) :
    data.foldl (fun s v => (byteBits v).foldl add_bit s) st =
      (frameBits data).foldl add_bit st := by
  induction data generalizing st with
  | nil => rfl
  | cons v data ih =>
      rw [List.foldl_cons, frameBits_cons, List.foldl_append, ih]

theorem slotsList_eq (pu : List Nat) (n : Nat) (L : List Bool)
    (hL : L.length = n)
    (h : ∀ i, i < n → getSlot pu i = L.getD i false) : slotsList pu n = L := by
  apply List.ext_getElem
  · simp [slotsList, hL]
  · intro i h1 h2
    simp only [slotsList, List.getElem_map, List.getElem_range]
    rw [h i (by simpa [slotsList] using h1), List.getD_eq_getElem?_getD,
      List.getElem?_eq_getElem h2]
    rfl

/-- Expected slot content of a full transmission of the given frame bits:
the start condition, the encoded data bits, then the stop marker the code
actually produces, a mark followed by 11 spaces. -/
def expectedSlots (bits : List Bool) : List Bool :=
  List.replicate 8 true ++ List.replicate 8 false ++ encBits bits ++
    (true :: List.replicate 11 false)

theorem expectedSlots_length (bits : List Bool) :
    (expectedSlots bits).length = 16 + weightSum bits + 12 := by
  simp [expectedSlots, encBits_length]
  omega

/-- Central structure theorem for send_ir_data on a 6-byte frame: the
recorded size is start + data + 12 stop slots, the engine is armed at slot
0 with the requested repeat count, and the slot sequence is exactly the
start condition, the MSB-first bit encodings and the stop marker. -/
theorem send_ir_data_spec (data : List Nat) (rep : Nat) (st : IrState)
    (h6 : data.length = 6) :
    (send_ir_data data rep st).pulses_size =
      16 + weightSum (frameBits data) + 12 ∧
    (send_ir_data data rep st).repeat_count = rep % 256 ∧
    (send_ir_data data rep st).current_pulse = 0 ∧
    (send_ir_data data rep st).current_sub_pulse = 0 ∧
    slotsList (send_ir_data data rep st).pulses
        (send_ir_data data rep st).pulses_size =
      expectedSlots (frameBits data) := by
  have hbits : (frameBits data).length = 48 := by
    rw [frameBits_length, h6]
  have hsum : weightSum (frameBits data) ≤ 192 := by
    have := weightSum_le (frameBits data)
    omega
  obtain ⟨hs1, hs2, hs3, hs4, hs5⟩ := add_start_fields st
  have hst1ahead : ∀ j, (add_start (init_buff st)).current_pulse ≤ j →
      getSlot (add_start (init_buff st)).pulses j = false := by
    intro j hj
    rw [add_start_getSlot]
    simp only [decide_eq_false_iff_not]
    omega
  obtain ⟨hf1, hf2, hf3, hf4, hf5, hf6, hf7, hf8⟩ :=
    foldl_add_bit_spec (frameBits data) (add_start (init_buff st)) hs2
      hst1ahead (by rw [hs1]; omega)
  set S := weightSum (frameBits data) with hS
  set st2 := (frameBits data).foldl add_bit (add_start (init_buff st))
    with hst2
  rw [hs1] at hf1 hf6 hf7 hf8
  -- facts about the stop marker
  have hmark3 : (add_bit st2 true).pulses = setSlot st2.pulses (16 + S) := by
    rw [add_bit_pulses, hf1]
  have hcur3 : (add_bit st2 true).current_pulse = 16 + S + 4 := by
    rw [add_bit_current, hf1]
    rfl
  have hdiv : (16 + S) / 8 < 29 := by omega
  have hstop_mark : getSlot (add_bit st2 true).pulses (16 + S) = true := by
    rw [hmark3]
    exact getSlot_setSlot_self _ _ (by rw [hf2]; omega)
  have hstop_other : ∀ j, j ≠ 16 + S →
      getSlot (add_bit st2 true).pulses j = getSlot st2.pulses j := by
    intro j hj
    rw [hmark3, getSlot_setSlot_other _ _ _ hj]
  have hsend : send_ir_data data rep st =
      start (add_stop st2) rep := by
    rw [hst2]
    simp only [send_ir_data, foldl_bytes_eq_foldl_bits]
  have hsize : (send_ir_data data rep st).pulses_size = 16 + S + 12 := by
    rw [hsend]
    unfold start add_stop
    simp only [hcur3]
    omega
  have hpulses : (send_ir_data data rep st).pulses =
      (add_bit st2 true).pulses := by
    rw [hsend]
    unfold start add_stop
    simp
  refine ⟨hsize, ?_, ?_, ?_, ?_⟩
  · rw [hsend]
    unfold start add_stop
    simp
  · rw [hsend]
    unfold start add_stop
    simp
  · rw [hsend]
    unfold start add_stop
    simp
  · rw [hsize, hpulses]
    apply slotsList_eq
    · rw [expectedSlots_length]
    · intro i hi
      unfold expectedSlots
      rw [List.append_assoc, List.append_assoc]
      by_cases h8 : i < 8
      · rw [hstop_other i (by omega), hf7 i (by omega), add_start_getSlot,
          List.getD_append _ _ _ _ (by simpa using h8),
          List.getD_eq_getElem?_getD, List.getElem?_replicate_of_lt h8]
        simp [h8]
      · by_cases h16 : i < 16
        · rw [hstop_other i (by omega), hf7 i (by omega), add_start_getSlot,
            List.getD_append_right _ _ _ _ (by simp only [List.length_replicate]; omega),
            List.getD_append _ _ _ _ (by simp only [List.length_replicate]; omega),
            List.length_replicate, List.getD_eq_getElem?_getD,
            List.getElem?_replicate_of_lt (by omega : i - 8 < 8)]
          simp only [Option.getD_some, decide_eq_false_iff_not]
          omega
        · rw [List.getD_append_right _ _ _ _ (by simp only [List.length_replicate]; omega),
            List.getD_append_right _ _ _ _ (by simp only [List.length_replicate]; omega),
            List.length_replicate, List.length_replicate]
          by_cases hdata : i < 16 + S
          · rw [hstop_other i (by omega)]
            have := hf8 (i - 16) (by omega)
            rw [show 16 + (i - 16) = i by omega] at this
            rw [this,
              List.getD_append _ _ _ _ (by rw [encBits_length]; omega)]
            rw [show i - 8 - 8 = i - 16 by omega]
          · rw [List.getD_append_right _ _ _ _ (by rw [encBits_length]; omega),
              encBits_length]
            by_cases hstop : i = 16 + S
            · rw [show i - 8 - 8 - weightSum (frameBits data) = 0 by omega]
              rw [List.getD_cons_zero]
              rw [show i = 16 + S from hstop]
              exact hstop_mark
            · rw [hstop_other i hstop, hf6 i (by omega)]
              have hk' : ∃ k, i - 8 - 8 - weightSum (frameBits data) = k + 1 :=
                ⟨i - 16 - S - 1, by omega⟩
              obtain ⟨k, hk⟩ := hk'
              rw [hk, List.getD_cons_succ, getD_replicate_false]

/-! ### Lemmas about the round-trip decoder -/

theorem countFalses_cons_true (l : List Bool) : countFalses (true :: l) = 0 :=
  rfl

theorem countFalses_replicate_append (k : Nat) (l : List Bool) :
    countFalses (List.replicate k false ++ l) = k + countFalses l := by
  induction k with
  | zero => simp [List.replicate]
  | succ k ih =>
      rw [List.replicate_succ, List.cons_append]
      show countFalses (List.replicate k false ++ l) + 1 = k + 1 + countFalses l
      omega

theorem countFalses_encBits_append_true (bs : List Bool) (t : List Bool) :
    countFalses (encBits bs ++ (true :: t)) = 0 := by
  cases bs with
  | nil => rfl
  | cons b rest =>
      rw [encBits_cons]
      cases b <;> rfl

theorem decode_encBits (bs : List Bool) (t : List Bool) :
    decodeBits bs.length (encBits bs ++ (true :: t)) = bs := by
  induction bs generalizing t with
  | nil => rfl
  | cons b rest ih =>
      rw [List.length_cons, encBits_cons, List.append_assoc]
      have hshape : encBit b ++ (encBits rest ++ (true :: t)) =
          true :: (List.replicate (if b then 3 else 1) false ++
            (encBits rest ++ (true :: t))) := by
        cases b <;> rfl
      rw [hshape]
      show (let c := countFalses (List.replicate (if b then 3 else 1) false ++
          (encBits rest ++ (true :: t)))
        decide (c = 3) :: decodeBits rest.length
          ((List.replicate (if b then 3 else 1) false ++
            (encBits rest ++ (true :: t))).drop c)) = b :: rest
      have hcount : countFalses (List.replicate (if b then 3 else 1) false ++
          (encBits rest ++ (true :: t))) = (if b then 3 else 1) := by
        rw [countFalses_replicate_append, countFalses_encBits_append_true,
          Nat.add_zero]
      simp only [hcount]
      rw [List.drop_left' (by simp)]
      rw [ih t]
      cases b <;> rfl

set_option maxRecDepth 2048 in
theorem bitsToByte_byteBits : ∀ v, v < 256 → bitsToByte (byteBits v) = v := by
  decide

theorem bytesFromBits_frameBits (data : List Nat)
    (hb : ∀ b ∈ data, b < 256) :
    bytesFromBits data.length (frameBits data) = data := by
  induction data with
  | nil => rfl
  | cons v rest ih =>
      rw [List.length_cons, frameBits_cons]
      show bitsToByte ((byteBits v ++ frameBits rest).take 8) ::
        bytesFromBits rest.length ((byteBits v ++ frameBits rest).drop 8) =
        v :: rest
      rw [List.take_left' (byteBits_length v),
        List.drop_left' (byteBits_length v),
        bitsToByte_byteBits v (hb v (List.mem_cons_self v rest)),
        ih (fun b h => hb b (List.mem_cons_of_mem v h))]

theorem expectedSlots_drop_16 (bits : List Bool) :
    (expectedSlots bits).drop 16 =
      encBits bits ++ (true :: List.replicate 11 false) := by
  unfold expectedSlots
  rw [List.append_assoc, List.drop_left' (by simp)]

/-! ### Lemmas about the playback engine -/

theorem tick_sub (pu : List Nat) (S r c s : Nat) (p : GPIO_PinState)
    (t : Bool) (hs : s < 42) :
    HAL_TIM_PeriodElapsedCallback ⟨⟨pu, S, r, c, s⟩, p, t⟩ =
      ⟨⟨pu, S, r, c, s + 1⟩,
        if s % 2 = 0 ∧ getSlot pu c then GPIO_PinState.reset
        else GPIO_PinState.set, t⟩ := by
  simp [HAL_TIM_PeriodElapsedCallback, SUB_PULSES_PER_PULSE, hs]

theorem tick_window (j : Nat) (pu : List Nat) (S r c : Nat) (t : Bool) :
    ∀ p : GPIO_PinState, 1 ≤ j → j ≤ 42 →
      HAL_TIM_PeriodElapsedCallback^[j] ⟨⟨pu, S, r, c, 42 - j⟩, p, t⟩ =
        ⟨⟨pu, S, r, c, 42⟩, GPIO_PinState.set, t⟩ := by
  induction j with
  | zero =>
      intro p h1 h2
      omega
  | succ j ih =>
      intro p h1 h2
      rw [Function.iterate_succ_apply,
        tick_sub pu S r c (42 - (j + 1)) p t (by omega)]
      rcases Nat.eq_zero_or_pos j with hj0 | hjpos
      · subst hj0
        rw [show 42 - (0 + 1) + 1 = 42 by norm_num,
          Function.iterate_zero_apply,
          if_neg (by norm_num)]
      · rw [show 42 - (j + 1) + 1 = 42 - j by omega]
        exact ih _ hjpos (by omega)

theorem tick_advance_mid (pu : List Nat) (S r c : Nat) (p : GPIO_PinState)
    (t : Bool) (hc : c + 1 < S) (hS : S ≤ 256) :
    HAL_TIM_PeriodElapsedCallback ⟨⟨pu, S, r, c, 42⟩, p, t⟩ =
      ⟨⟨pu, S, r, c + 1, 0⟩, p, t⟩ := by
  have hmod : (c + 1) % 256 = c + 1 := Nat.mod_eq_of_lt (by omega)
  simp [HAL_TIM_PeriodElapsedCallback, SUB_PULSES_PER_PULSE, hmod]
  omega

theorem tick_advance_done (pu : List Nat) (S : Nat) (p : GPIO_PinState)
    (t : Bool) (hS1 : 1 ≤ S) (hS : S ≤ 255) :
    HAL_TIM_PeriodElapsedCallback ⟨⟨pu, S, 1, S - 1, 42⟩, p, t⟩ =
      ⟨⟨pu, S, 0, S, 0⟩, GPIO_PinState.reset, false⟩ := by
  have hmod : (S - 1 + 1) % 256 = S := by omega
  simp [HAL_TIM_PeriodElapsedCallback, SUB_PULSES_PER_PULSE, hmod]

theorem tick_advance_repeat (pu : List Nat) (S r : Nat) (p : GPIO_PinState)
    (t : Bool) (hS1 : 1 ≤ S) (hS : S ≤ 255) (hr2 : 2 ≤ r) (hr : r ≤ 255) :
    HAL_TIM_PeriodElapsedCallback ⟨⟨pu, S, r, S - 1, 42⟩, p, t⟩ =
      ⟨⟨pu, S, r - 1, 0, 0⟩, p, t⟩ := by
  have hmod : (S - 1 + 1) % 256 = S := by omega
  have hmod2 : (r + 255) % 256 = r - 1 := by omega
  simp [HAL_TIM_PeriodElapsedCallback, SUB_PULSES_PER_PULSE, hmod, hmod2]
  omega

theorem tick_pass_repeat (k : Nat) (pu : List Nat) (S r : Nat) (t : Bool) :
    ∀ p : GPIO_PinState, 1 ≤ k → k ≤ S → S ≤ 255 → 2 ≤ r → r ≤ 255 →
      HAL_TIM_PeriodElapsedCallback^[43 * k] ⟨⟨pu, S, r, S - k, 0⟩, p, t⟩ =
        ⟨⟨pu, S, r - 1, 0, 0⟩, GPIO_PinState.set, t⟩ := by
  induction k with
  | zero =>
      intro p h1 _ _ _ _
      omega
  | succ k ih =>
      intro p h1 hkS hS hr2 hr
      rcases Nat.eq_zero_or_pos k with hk0 | hkpos
      · subst hk0
        rw [show 43 * (0 + 1) = 1 + 42 by norm_num,
          Function.iterate_add_apply,
          show (0 : Nat) = 42 - 42 from rfl,
          tick_window 42 pu S r (S - (0 + 1)) t p (by omega) (by omega),
          Function.iterate_one,
          tick_advance_repeat pu S r _ t (by omega) hS hr2 hr]
      · rw [show 43 * (k + 1) = (43 * k) + 43 by ring,
          Function.iterate_add_apply,
          show (43 : Nat) = 1 + 42 from rfl, Function.iterate_add_apply,
          show (0 : Nat) = 42 - 42 from rfl,
          tick_window 42 pu S r (S - (k + 1)) t p (by omega) (by omega),
          Function.iterate_one,
          tick_advance_mid pu S r (S - (k + 1)) _ t (by omega) (by omega),
          show S - (k + 1) + 1 = S - k by omega]
        exact ih _ hkpos (by omega) hS hr2 hr

theorem tick_pass_done (k : Nat) (pu : List Nat) (S : Nat) (t : Bool) :
    ∀ p : GPIO_PinState, 1 ≤ k → k ≤ S → S ≤ 255 →
      HAL_TIM_PeriodElapsedCallback^[43 * k] ⟨⟨pu, S, 1, S - k, 0⟩, p, t⟩ =
        ⟨⟨pu, S, 0, S, 0⟩, GPIO_PinState.reset, false⟩ := by
  induction k with
  | zero =>
      intro p h1 _ _
      omega
  | succ k ih =>
      intro p h1 hkS hS
      rcases Nat.eq_zero_or_pos k with hk0 | hkpos
      · subst hk0
        rw [show 43 * (0 + 1) = 1 + 42 by norm_num,
          Function.iterate_add_apply,
          show (0 : Nat) = 42 - 42 from rfl,
          tick_window 42 pu S 1 (S - (0 + 1)) t p (by omega) (by omega),
          Function.iterate_one,
          tick_advance_done pu S _ t (by omega) hS]
      · rw [show 43 * (k + 1) = (43 * k) + 43 by ring,
          Function.iterate_add_apply,
          show (43 : Nat) = 1 + 42 from rfl, Function.iterate_add_apply,
          show (0 : Nat) = 42 - 42 from rfl,
          tick_window 42 pu S 1 (S - (k + 1)) t p (by omega) (by omega),
          Function.iterate_one,
          tick_advance_mid pu S 1 (S - (k + 1)) _ t (by omega) (by omega),
          show S - (k + 1) + 1 = S - k by omega]
        exact ih _ hkpos (by omega) hS

/-- Central engine theorem: starting from an armed transmission of S slots
and N repeats, each block of 43·S ticks completes exactly one full pass and
decrements the repeat counter once; after the N-th pass the engine is idle
with the timer stopped and the pin forced to GPIO_PIN_RESET. -/
theorem engine_pass_spec (pu : List Nat) (S N k : Nat)
    (hS1 : 1 ≤ S) (hS : S ≤ 255) (hN1 : 1 ≤ N) (hN : N ≤ 255) :
    ∀ p : GPIO_PinState, 1 ≤ k → k ≤ N →
      HAL_TIM_PeriodElapsedCallback^[43 * S * k] ⟨⟨pu, S, N, 0, 0⟩, p, true⟩ =
        if k < N then ⟨⟨pu, S, N - k, 0, 0⟩, GPIO_PinState.set, true⟩
        else ⟨⟨pu, S, 0, S, 0⟩, GPIO_PinState.reset, false⟩ := by
  induction k with
  | zero =>
      intro p hk1 _
      omega
  | succ k ih =>
      intro p hk1 hkN
      rcases Nat.eq_zero_or_pos k with hk0 | hkpos
      · subst hk0
        rw [show 43 * S * (0 + 1) = 43 * S by ring]
        by_cases hN2 : 0 + 1 < N
        · rw [if_pos hN2,
            show (⟨⟨pu, S, N, 0, 0⟩, p, true⟩ : Machine) =
              ⟨⟨pu, S, N, S - S, 0⟩, p, true⟩ by rw [Nat.sub_self],
            show (43 * S : Nat) = 43 * S by rfl]
          have := tick_pass_repeat S pu S N true p (by omega) (by omega)
            hS (by omega) hN
          rw [this]
        · rw [if_neg hN2,
            show (⟨⟨pu, S, N, 0, 0⟩, p, true⟩ : Machine) =
              ⟨⟨pu, S, 1, S - S, 0⟩, p, true⟩ by
                rw [Nat.sub_self, show N = 1 by omega]]
          exact tick_pass_done S pu S true p (by omega) (by omega) hS
      · rw [show 43 * S * (k + 1) = 43 * S + 43 * S * k by ring,
          Function.iterate_add_apply,
          ih p hkpos (by omega),
          if_pos (by omega : k < N)]
        by_cases hlast : k + 1 < N
        · rw [if_pos hlast,
            show (⟨⟨pu, S, N - k, 0, 0⟩, GPIO_PinState.set, true⟩ :
                Machine) =
              ⟨⟨pu, S, N - k, S - S, 0⟩, GPIO_PinState.set, true⟩ by
                rw [Nat.sub_self]]
          have := tick_pass_repeat S pu S (N - k) true GPIO_PinState.set
            (by omega) (by omega) hS (by omega) (by omega)
          rw [this, show N - k - 1 = N - (k + 1) by omega]
        · rw [if_neg hlast,
            show (⟨⟨pu, S, N - k, 0, 0⟩, GPIO_PinState.set, true⟩ :
                Machine) =
              ⟨⟨pu, S, 1, S - S, 0⟩, GPIO_PinState.set, true⟩ by
                rw [Nat.sub_self, show N - k = 1 by omega]]
          exact tick_pass_done S pu S true GPIO_PinState.set (by omega)
            (by omega) hS

/-! ### Lemmas about the packet encoder -/

theorem getElem?_getD_of_lt (l : List Nat) (i : Nat) (h : i < l.length) :
    l[i]? = some (l.getD i 0) := by
  rw [List.getElem?_eq_getElem h, List.getD_eq_getElem?_getD,
    List.getElem?_eq_getElem h]
  rfl

theorem temperature_table_getD_lt (i : Nat) :
    temperature_table.getD i 0 < 16 := by
  rcases Nat.lt_or_ge i 14 with h | h
  · interval_cases i <;> decide
  · rw [List.getD_eq_getElem?_getD,
      List.getElem?_eq_none (by simp [temperature_table]; omega)]
    decide

theorem fan_table_getD_lt (i : Nat) : fan_table.getD i 0 < 16 := by
  rcases Nat.lt_or_ge i 4 with h | h
  · interval_cases i <;> decide
  · rw [List.getD_eq_getElem?_getD,
      List.getElem?_eq_none (by simp [fan_table]; omega)]
    decide

theorem pack_data_opt_eq (ir : MideaIR) :
    pack_data_opt ir = some (pack_data ir) := by
  have hfanlook : fan_table[ir.fan_level.val]? =
      some (fan_table.getD ir.fan_level.val 0) :=
    getElem?_getD_of_lt _ _ (by simp [fan_table])
  unfold pack_data pack_data_opt
  cases hen : ir.enabled
  · rfl
  · rw [if_pos rfl, if_pos rfl]
    by_cases hauto : ir.mode = Mode.MODE_AUTO
    · have hfan : ¬ ir.mode = Mode.MODE_FAN := by
        rw [hauto]
        decide
      rw [if_pos hauto, if_pos hauto, if_neg hfan, if_neg hfan]
      by_cases hr : TEMP_LOW ≤ ir.temperature ∧ ir.temperature ≤ TEMP_HIGH
      · have htlook : temperature_table[ir.temperature - TEMP_LOW]? =
            some (temperature_table.getD (ir.temperature - TEMP_LOW) 0) :=
          getElem?_getD_of_lt _ _
            (by simp only [temperature_table, TEMP_LOW, TEMP_HIGH] at *
                simp only [List.length_cons, List.length_nil]
                omega)
        rw [if_pos hr, if_pos hr, htlook]
      · rw [if_neg hr, if_neg hr]
    · rw [if_neg hauto, if_neg hauto, hfanlook]
      by_cases hfan : ir.mode = Mode.MODE_FAN
      · rw [if_pos hfan, if_pos hfan]
      · rw [if_neg hfan, if_neg hfan]
        by_cases hr : TEMP_LOW ≤ ir.temperature ∧ ir.temperature ≤ TEMP_HIGH
        · have htlook : temperature_table[ir.temperature - TEMP_LOW]? =
              some (temperature_table.getD (ir.temperature - TEMP_LOW) 0) :=
            getElem?_getD_of_lt _ _
              (by simp only [temperature_table, TEMP_LOW, TEMP_HIGH] at *
                  simp only [List.length_cons, List.length_nil]
                  omega)
          rw [if_pos hr, if_pos hr, htlook]
        · rw [if_neg hr, if_neg hr]

theorem pack_data_magic (ir : MideaIR) : (pack_data ir).magic = 0xB2 := by
  cases hen : ir.enabled <;> simp [pack_data, hen]

theorem pack_data_state_lt (ir : MideaIR) : (pack_data ir).state < 16 := by
  cases hen : ir.enabled <;> simp [pack_data, hen]

theorem pack_data_fan_lt (ir : MideaIR) : (pack_data ir).fan < 16 := by
  cases hen : ir.enabled
  · simp [pack_data, hen]
  · by_cases hauto : ir.mode = Mode.MODE_AUTO
    · simp [pack_data, hen, hauto]
    · simp [pack_data, hen, hauto]
      rw [← List.getD_eq_getElem?_getD]
      exact fan_table_getD_lt _

theorem pack_data_command_lt (ir : MideaIR) : (pack_data ir).command < 16 := by
  cases hen : ir.enabled
  · simp [pack_data, hen]
  · have : ir.mode.code < 16 := by cases ir.mode <;> decide
    simp [pack_data, hen, this]

theorem pack_data_temp_lt (ir : MideaIR) : (pack_data ir).temp < 16 := by
  cases hen : ir.enabled
  · simp [pack_data, hen]
  · by_cases hfan : ir.mode = Mode.MODE_FAN
    · simp [pack_data, hen, hfan]
    · by_cases hr : TEMP_LOW ≤ ir.temperature ∧ ir.temperature ≤ TEMP_HIGH
      · simp [pack_data, hen, hfan, hr]
        rw [← List.getD_eq_getElem?_getD]
        exact temperature_table_getD_lt _
      · simp [pack_data, hen, hfan, hr]

theorem pack_data_temp_eq (ir : MideaIR) (he : ir.enabled = true)
    (hn : ir.mode ≠ Mode.MODE_FAN) :
    (pack_data ir).temp =
      (if 17 ≤ ir.temperature ∧ ir.temperature ≤ 30 then
        temperature_table.getD (ir.temperature - 17) 0
      else 0b0100) := by
  simp [pack_data, he, hn, TEMP_LOW, TEMP_HIGH]

/-! ### Claim theorems -/

/-- C1, counterexample: on the all-zero frame the pulse-train builder
records 124 slots, not the 16 + 96 + 9 = 121 slots the claim's formula with
a 9-slot stop marker predicts; the stop marker actually occupies 12 slots. -/
theorem c1_stop_is_not_9_slots :
    (send_ir_data [0, 0, 0, 0, 0, 0] 2 boot_ir_state).pulses_size ≠
      16 + weightSum (frameBits [0, 0, 0, 0, 0, 0]) + 9 := by
  decide

/-- C1, amended: for every 6-byte RawFrame the total slot count recorded by
the pulse-train builder equals 16 start slots, plus the sum over the 48 data
bits of 2 slots for a 0-bit and 4 slots for a 1-bit, plus 12 stop slots (the
stop marker is written as a 1-bit, one mark and 3 spaces, followed by 8
trailing space slots). -/
theorem c1_slot_count_formula (data : List Nat) (rep : Nat) (st : IrState)
    (h6 : data.length = 6) :
    (send_ir_data data rep st).pulses_size =
      16 + weightSum (frameBits data) + 12 :=
  (send_ir_data_spec data rep st h6).1

theorem c1_slot_count_formula_witness :
    (send_ir_data [0xB2, 0x4D, 0x5F, 0xA0, 0x70, 0x8F] 2
        boot_ir_state).pulses_size =
      16 + weightSum (frameBits [0xB2, 0x4D, 0x5F, 0xA0, 0x70, 0x8F]) + 12 :=
  c1_slot_count_formula [0xB2, 0x4D, 0x5F, 0xA0, 0x70, 0x8F] 2 boot_ir_state
    (by decide)

/-- C2, code bug: while a space slot is being played the handler holds the
pin at GPIO_PIN_SET for the whole 42-sub-tick window, but when the last
repeat completes it forces the pin to GPIO_PIN_RESET (the same level init
drives); the two "inactive" levels disagree, so a space is not held at the
idle level the engine forces at completion.  Exhibited on a 1-slot
transmission whose single slot is a space. -/
theorem c2_space_level_vs_idle_level :
    (∀ j ∈ List.range 42,
      (HAL_TIM_PeriodElapsedCallback^[j + 1]
        ⟨⟨[0], 1, 1, 0, 0⟩, GPIO_PinState.reset, true⟩).pin =
        GPIO_PinState.set) ∧
    (HAL_TIM_PeriodElapsedCallback^[43]
        ⟨⟨[0], 1, 1, 0, 0⟩, GPIO_PinState.reset, true⟩).pin =
      GPIO_PinState.reset ∧
    (HAL_TIM_PeriodElapsedCallback^[43]
        ⟨⟨[0], 1, 1, 0, 0⟩, GPIO_PinState.reset, true⟩).timer_on = false ∧
    GPIO_PinState.set ≠ GPIO_PinState.reset := by
  decide

/-- C3: the packet encoder is total: the optional-lookup variant never
fails (no out-of-bounds table access), the magic byte is 0xB2 and all four
nibble fields are valid nibbles, and for an enabled state whose mode is not
Fan the temp nibble comes from the temperature table at index
temperature - 17 when 17 <= temperature <= 30 and is the fixed fallback
0b0100 otherwise. -/
theorem c3_encoder_total (ir : MideaIR) :
    pack_data_opt ir = some (pack_data ir) ∧
    (pack_data ir).magic = 0xB2 ∧
    (pack_data ir).state < 16 ∧
    (pack_data ir).fan < 16 ∧
    (pack_data ir).command < 16 ∧
    (pack_data ir).temp < 16 ∧
    (ir.enabled = true → ir.mode ≠ Mode.MODE_FAN →
      (pack_data ir).temp =
        (if 17 ≤ ir.temperature ∧ ir.temperature ≤ 30 then
          temperature_table.getD (ir.temperature - 17) 0
        else 0b0100)) :=
  ⟨pack_data_opt_eq ir, pack_data_magic ir, pack_data_state_lt ir,
   pack_data_fan_lt ir, pack_data_command_lt ir, pack_data_temp_lt ir,
   pack_data_temp_eq ir⟩

theorem c3_encoder_total_witness :
    pack_data_opt ⟨22, true, Mode.MODE_COOL, 2⟩ =
      some (pack_data ⟨22, true, Mode.MODE_COOL, 2⟩) ∧
    (pack_data ⟨22, true, Mode.MODE_COOL, 2⟩).temp =
      (if 17 ≤ 22 ∧ 22 ≤ 30 then temperature_table.getD (22 - 17) 0
       else 0b0100) :=
  ⟨(c3_encoder_total ⟨22, true, Mode.MODE_COOL, 2⟩).1,
   (c3_encoder_total ⟨22, true, Mode.MODE_COOL, 2⟩).2.2.2.2.2.2 rfl
     (by decide)⟩

theorem xor_xor_ff (b : Nat) : b ^^^ (b ^^^ 0xFF) = 0xFF := by
  rw [← Nat.xor_assoc, Nat.xor_self, Nat.zero_xor]

/-- C4: the frame builder interleaves each of the 3 packet bytes with its
bitwise complement in the original byte order, and every even index xors
with its successor to 0xFF. -/
theorem c4_complement_frame (b0 b1 b2 : Nat) (h0 : b0 < 256) (h1 : b1 < 256)
    (h2 : b2 < 256) :
    add_complementary_bytes [b0, b1, b2] =
      [b0, b0 ^^^ 0xFF, b1, b1 ^^^ 0xFF, b2, b2 ^^^ 0xFF] ∧
    (add_complementary_bytes [b0, b1, b2]).getD 0 0 ^^^
      (add_complementary_bytes [b0, b1, b2]).getD 1 0 = 0xFF ∧
    (add_complementary_bytes [b0, b1, b2]).getD 2 0 ^^^
      (add_complementary_bytes [b0, b1, b2]).getD 3 0 = 0xFF ∧
    (add_complementary_bytes [b0, b1, b2]).getD 4 0 ^^^
      (add_complementary_bytes [b0, b1, b2]).getD 5 0 = 0xFF := by
  have hlist : add_complementary_bytes [b0, b1, b2] =
      [b0, b0 ^^^ 0xFF, b1, b1 ^^^ 0xFF, b2, b2 ^^^ 0xFF] := by
    simp [add_complementary_bytes, Nat.mod_eq_of_lt h0,
      Nat.mod_eq_of_lt h1, Nat.mod_eq_of_lt h2]
  refine ⟨hlist, ?_, ?_, ?_⟩ <;>
    · rw [hlist]
      simp only [List.getD_cons_zero, List.getD_cons_succ]
      exact xor_xor_ff _

theorem c4_complement_frame_witness :
    add_complementary_bytes [0xB2, 0x5F, 0x70] =
      [0xB2, 0xB2 ^^^ 0xFF, 0x5F, 0x5F ^^^ 0xFF, 0x70, 0x70 ^^^ 0xFF] ∧
    (add_complementary_bytes [0xB2, 0x5F, 0x70]).getD 0 0 ^^^
      (add_complementary_bytes [0xB2, 0x5F, 0x70]).getD 1 0 = 0xFF ∧
    (add_complementary_bytes [0xB2, 0x5F, 0x70]).getD 2 0 ^^^
      (add_complementary_bytes [0xB2, 0x5F, 0x70]).getD 3 0 = 0xFF ∧
    (add_complementary_bytes [0xB2, 0x5F, 0x70]).getD 4 0 ^^^
      (add_complementary_bytes [0xB2, 0x5F, 0x70]).getD 5 0 = 0xFF :=
  c4_complement_frame 0xB2 0x5F 0x70 (by decide) (by decide) (by decide)

/-- C5: for every 6-byte RawFrame the pulse-train builder first emits 8
consecutive mark slots and 8 consecutive space slots independent of the
data, then encodes the 6 bytes MSB first, each bit as one mark slot
followed by 1 space slot for a 0 bit or 3 space slots for a 1 bit. -/
theorem c5_start_and_bit_encoding (data : List Nat) (rep : Nat)
    (st : IrState) (h6 : data.length = 6) :
    slotsList (send_ir_data data rep st).pulses
        (16 + weightSum (frameBits data)) =
      List.replicate 8 true ++ List.replicate 8 false ++
        encBits (frameBits data) := by
  obtain ⟨hsize, _, _, _, hslots⟩ := send_ir_data_spec data rep st h6
  have htake : slotsList (send_ir_data data rep st).pulses
      (16 + weightSum (frameBits data)) =
      (slotsList (send_ir_data data rep st).pulses
        (send_ir_data data rep st).pulses_size).take
          (16 + weightSum (frameBits data)) := by
    unfold slotsList
    rw [← List.map_take, List.take_range, hsize,
      Nat.min_eq_left (by omega)]
  rw [htake, hslots]
  unfold expectedSlots
  rw [List.take_left' (by simp [encBits_length]; omega)]

theorem c5_start_and_bit_encoding_witness :
    slotsList (send_ir_data [0xB2, 0x4D, 0x5F, 0xA0, 0x70, 0x8F] 2
        boot_ir_state).pulses
        (16 + weightSum (frameBits [0xB2, 0x4D, 0x5F, 0xA0, 0x70, 0x8F])) =
      List.replicate 8 true ++ List.replicate 8 false ++
        encBits (frameBits [0xB2, 0x4D, 0x5F, 0xA0, 0x70, 0x8F]) :=
  c5_start_and_bit_encoding [0xB2, 0x4D, 0x5F, 0xA0, 0x70, 0x8F] 2
    boot_ir_state (by decide)

/-- C6: from an armed transmission of S slots and N repeats, every block of
43·S ticks of the interrupt handler completes one full pass and decrements
repeat_count exactly once; after exactly 43·S·N ticks the engine is idle
with repeat_count 0, the timer stopped and the pin forced to
GPIO_PIN_RESET, so it never gets stuck mid-sequence. -/
theorem c6_repeat_semantics (pu : List Nat) (p : GPIO_PinState)
    (S N k : Nat) (hS1 : 1 ≤ S) (hS : S ≤ 255) (hN1 : 1 ≤ N) (hN : N ≤ 255)
    (hk1 : 1 ≤ k) (hkN : k ≤ N) :
    HAL_TIM_PeriodElapsedCallback^[43 * S * k] ⟨⟨pu, S, N, 0, 0⟩, p, true⟩ =
      if k < N then ⟨⟨pu, S, N - k, 0, 0⟩, GPIO_PinState.set, true⟩
      else ⟨⟨pu, S, 0, S, 0⟩, GPIO_PinState.reset, false⟩ :=
  engine_pass_spec pu S N k hS1 hS hN1 hN p hk1 hkN

theorem c6_repeat_semantics_witness :
    HAL_TIM_PeriodElapsedCallback^[43 * 1 * 2]
        ⟨⟨[0], 1, 2, 0, 0⟩, GPIO_PinState.reset, true⟩ =
      if 2 < 2 then ⟨⟨[0], 1, 2 - 2, 0, 0⟩, GPIO_PinState.set, true⟩
      else ⟨⟨[0], 1, 0, 1, 0⟩, GPIO_PinState.reset, false⟩ :=
  c6_repeat_semantics [0] GPIO_PinState.reset 1 2 2 (by decide) (by decide)
    (by decide) (by decide) (by decide) (by decide)

/-- C7: decoding the slot buffer produced by the pulse-train builder,
skipping the 16 start slots and then reading each mark and counting the
following spaces for 48 bits, reproduces the 6 original frame bytes
exactly. -/
theorem c7_round_trip (data : List Nat) (rep : Nat) (st : IrState)
    (h6 : data.length = 6) (hb : ∀ b ∈ data, b < 256) :
    bytesFromBits 6 (decodeBits 48
      ((slotsList (send_ir_data data rep st).pulses
        (send_ir_data data rep st).pulses_size).drop 16)) = data := by
  obtain ⟨_, _, _, _, hslots⟩ := send_ir_data_spec data rep st h6
  have h48 : (frameBits data).length = 48 := by
    rw [frameBits_length, h6]
  rw [hslots, expectedSlots_drop_16, ← h48, decode_encBits,
    show (6 : Nat) = data.length from h6.symm,
    bytesFromBits_frameBits data hb]

theorem c7_round_trip_witness :
    bytesFromBits 6 (decodeBits 48
      ((slotsList (send_ir_data [0xB2, 0x4D, 0x5F, 0xA0, 0x70, 0x8F] 2
          boot_ir_state).pulses
        (send_ir_data [0xB2, 0x4D, 0x5F, 0xA0, 0x70, 0x8F] 2
          boot_ir_state).pulses_size).drop 16)) =
      [0xB2, 0x4D, 0x5F, 0xA0, 0x70, 0x8F] :=
  c7_round_trip [0xB2, 0x4D, 0x5F, 0xA0, 0x70, 0x8F] 2 boot_ir_state
    (by decide) (by decide)

/-- C8: any two disabled states encode to the same fixed off packet with
magic 0xB2, fan 0b0111, state 0b1011, command 0b0000 and temp 0b1110; the
mode, fan_level and temperature fields have no influence. -/
theorem c8_off_packet_ignores_fields (s1 s2 : MideaIR)
    (h1 : s1.enabled = false) (h2 : s2.enabled = false) :
    pack_data s1 =
      { magic := 0xB2, state := 0b1011, fan := 0b0111,
        command := 0b0000, temp := 0b1110 } ∧
    pack_data s1 = pack_data s2 := by
  constructor
  · simp [pack_data, h1]
  · simp [pack_data, h1, h2]

theorem c8_off_packet_ignores_fields_witness :
    pack_data ⟨17, false, Mode.MODE_COOL, 0⟩ =
      { magic := 0xB2, state := 0b1011, fan := 0b0111,
        command := 0b0000, temp := 0b1110 } ∧
    pack_data ⟨17, false, Mode.MODE_COOL, 0⟩ =
      pack_data ⟨30, false, Mode.MODE_HEAT, 3⟩ :=
  c8_off_packet_ignores_fields ⟨17, false, Mode.MODE_COOL, 0⟩
    ⟨30, false, Mode.MODE_HEAT, 3⟩ rfl rfl

/-- C9: midea_ir_send always arms the engine with repeat count 2, and
midea_ir_move_deflector frames the literal bytes 0xB2 0x0F 0xE0 directly
(bypassing the packet encoder), arms with repeat count 1 and is independent
of its MideaIR argument. -/
theorem c9_repeat_counts_and_deflector (ir ir2 : MideaIR) (st : IrState) :
    (midea_ir_send ir st).repeat_count = 2 ∧
    (midea_ir_move_deflector ir st).repeat_count = 1 ∧
    midea_ir_move_deflector ir st =
      send_ir_data (add_complementary_bytes [0xB2, 0x0F, 0xE0]) 1 st ∧
    midea_ir_move_deflector ir st = midea_ir_move_deflector ir2 st :=
  ⟨rfl, rfl, rfl, rfl⟩

/-- C10: after midea_ir_init the engine is idle (repeat_count 0), the IR
pin is driven to GPIO_PIN_RESET, and the caller state is set to
temperature 24, disabled, mode MODE_AUTO and fan_level 0. -/
theorem c10_init_defaults (st : IrState) :
    (midea_ir_init st).1.repeat_count = 0 ∧
    (midea_ir_init st).2.2 = GPIO_PinState.reset ∧
    (midea_ir_init st).2.1.temperature = 24 ∧
    (midea_ir_init st).2.1.enabled = false ∧
    (midea_ir_init st).2.1.mode = Mode.MODE_AUTO ∧
    (midea_ir_init st).2.1.fan_level = 0 :=
  ⟨rfl, rfl, rfl, rfl, rfl, rfl⟩

end MideaSem
